import Mathlib

/-!
Shallow embedding of the node core of the repository:
the transaction ingress pipe (`transaction_pipe.rs`), the DA batching
writer and the DA read/execute loop (`partial.rs`), the multi-source
quorum event stream (`multiple_sources_of_truth.rs`), and the bridge
asset/amount types and the Movement initiator client
(`types.rs`, `chains/movement/src/lib.rs`).

External collaborators (the aptos mempool, serde_json, sha2, the DA wire
client, the settlement client) appear as explicit function parameters; the
code of this repository is translated statement by statement.
-/

/-! ## Transaction pipe (`opt-executor/src/executor/transaction_pipe.rs`) -/

/-- Mempool status codes from the aptos SDK used by the pipe. -/
inductive MempoolStatusCode
  | Accepted
  | InvalidSeqNumber
  | VmError
  | UnknownStatus
  | TooManyTransactions
  | InvalidUpdate
  | MempoolIsFull
deriving DecidableEq, Repr

/-- A signed user transaction; the payload is its opaque byte content. -/
structure SignedTransaction where
  payload : List Nat
  sequence_number : Nat
deriving DecidableEq, Repr

/-- Requests arriving on the mempool client channel. -/
inductive MempoolClientRequest
  | SubmitTransaction (tx : SignedTransaction)
  | GetTransactionByHash (hash : Nat)
deriving DecidableEq, Repr

/-- Observable actions of one pipe tick, in the order they happen. -/
inductive PipeEvent
  | sentToDA (tx : SignedTransaction)
  | replied (status : MempoolStatusCode)
  | repliedHash (result : Option SignedTransaction)
deriving DecidableEq, Repr

/-- Result of the tick: success or a `TransactionPipeError::InternalError`. -/
inductive PipeResult
  | ok
  | internalError (msg : String)
deriving DecidableEq, Repr

/-- Effects of one call to `tick_transaction_pipe`. -/
structure TickOutcome where
  events : List PipeEvent
  mempoolAdds : List SignedTransaction
  inFlightAfter : Nat
  gcRan : Bool
  result : PipeResult
deriving DecidableEq, Repr

/-- The load-shed bound of the pipe. The source writes the guard as
`in_flight > 2^12`; in Rust the caret is bitwise XOR, so the bound
evaluates to 14, not 4096 (the accompanying comment says 4096). -/
def loadShedBound : Nat := Nat.xor 2 12

/-- `Executor::tick_transaction_pipe`. Parameters stand for the external
collaborators: `addTxn` is `core_mempool.add_txn` (returning the status
code for the given transaction), `getByHash` is `core_mempool.get_by_hash`,
`callbackAlive` is whether the oneshot reply receiver is still held,
`channelOpen` is whether the DA-writer channel can accept sends, and
`lastGcElapsedSecs` is `last_gc.elapsed().as_secs()`.  A failed send on the
callback or the channel propagates as an internal error before the GC step;
the load-shed branch returns early, also skipping the GC step. -/
def tick_transaction_pipe
    (addTxn : SignedTransaction → MempoolStatusCode)
    (getByHash : Nat → Option SignedTransaction)
    (transactions_in_flight : Nat)
    (callbackAlive : Bool) (channelOpen : Bool)
    (request : Option MempoolClientRequest)
    (lastGcElapsedSecs : Nat) : TickOutcome :=
  let gcDue := decide (lastGcElapsedSecs > 60)
  match request with
  | none =>
      { events := [], mempoolAdds := [], inFlightAfter := transactions_in_flight,
        gcRan := gcDue, result := .ok }
  | some (.SubmitTransaction tx) =>
      if transactions_in_flight > loadShedBound then
        -- shed load: reply MempoolIsFull and return Ok early (no GC)
        if callbackAlive then
          { events := [.replied .MempoolIsFull], mempoolAdds := [],
            inFlightAfter := transactions_in_flight, gcRan := false, result := .ok }
        else
          { events := [], mempoolAdds := [],
            inFlightAfter := transactions_in_flight, gcRan := false,
            result := .internalError "Error sending transaction" }
      else
        let status := addTxn tx
        match status with
        | .Accepted =>
            -- send the transaction to the transaction channel, then reply;
            -- the in-flight counter is left untouched (the increment only
            -- exists in commented-out code in the source)
            if channelOpen then
              if callbackAlive then
                { events := [.sentToDA tx, .replied .Accepted], mempoolAdds := [tx],
                  inFlightAfter := transactions_in_flight, gcRan := gcDue, result := .ok }
              else
                { events := [.sentToDA tx], mempoolAdds := [tx],
                  inFlightAfter := transactions_in_flight, gcRan := false,
                  result := .internalError "Error sending transaction" }
            else
              { events := [], mempoolAdds := [tx],
                inFlightAfter := transactions_in_flight, gcRan := false,
                result := .internalError "Error sending transaction" }
        | s =>
            if callbackAlive then
              { events := [.replied s], mempoolAdds := [tx],
                inFlightAfter := transactions_in_flight, gcRan := gcDue, result := .ok }
            else
              { events := [], mempoolAdds := [tx],
                inFlightAfter := transactions_in_flight, gcRan := false,
                result := .internalError "Error sending transaction" }
  | some (.GetTransactionByHash h) =>
      if callbackAlive then
        { events := [.repliedHash (getByHash h)], mempoolAdds := [],
          inFlightAfter := transactions_in_flight, gcRan := gcDue, result := .ok }
      else
        { events := [], mempoolAdds := [],
          inFlightAfter := transactions_in_flight, gcRan := false,
          result := .internalError "Error sending transaction" }

/-! ## DA writer (`suzuka-full-node/src/partial.rs`, `tick_write_transactions_to_da`) -/

/-- One iteration of the writer's receive loop, as seen from the code:
the 100 ms receive either times out (the `while let Ok` guard fails),
yields a closed-channel error (the inner `Err` branch breaks), or yields a
transaction; after a received transaction the wall-clock deadline check
`Instant::now() > end_time` may break the loop, recorded in
`deadlineAfter`. -/
inductive RecvEvent
  | timedOut
  | closed
  | received (tx : SignedTransaction) (deadlineAfter : Bool)
deriving DecidableEq, Repr

/-- The transactions the receive loop accumulates before exiting, given the
schedule of receive outcomes. An exhausted schedule acts like a timeout. -/
def receiveTransactions : List RecvEvent → List SignedTransaction
  | [] => []
  | .timedOut :: _ => []
  | .closed :: _ => []
  | .received tx deadlineAfter :: rest =>
      tx :: (if deadlineAfter then [] else receiveTransactions rest)

/-- `tick_write_transactions_to_da`, returning the list of `batch_write`
calls made during the tick; each call carries the blob datas of the batch.
`encodeTx` is `serde_json::to_vec` on a `SignedTransaction`. -/
def tick_write_transactions_to_da
    (encodeTx : SignedTransaction → List Nat)
    (events : List RecvEvent) : List (List (List Nat)) :=
  let transactions := (receiveTransactions events).map encodeTx
  if transactions.length > 0 then [transactions] else []

/-! ## DA reader (`suzuka-full-node/src/partial.rs`, `read_blocks_from_da`) -/

/-- Blob payload variants of the DA wire envelope; the reader consumes only
`SequencedBlobBlock`, any other variant is an error for this consumer. -/
inductive BlobType
  | SequencedBlobBlock (data : List Nat)
  | PassedThroughBlob (data : List Nat)
deriving DecidableEq, Repr

/-- The optional blob inside a `BlobResponse`. -/
structure DaBlob where
  blob_type : Option BlobType
deriving DecidableEq, Repr

/-- One response message of the DA read stream. -/
structure BlobResponse where
  blob : Option DaBlob
deriving DecidableEq, Repr

/-- One item yielded by the stream: the `blob?` in the source propagates a
stream-level error. -/
inductive StreamItem
  | failed (msg : String)
  | ok (response : BlobResponse)
deriving DecidableEq, Repr

/-- Modelled from the spec: `movement_types::Block` is not under `src/`;
per the data model a block is an id, a parent and an ordered sequence of
byte-serialized transactions, matching the reader's uses
(`block.transactions`, `transaction.0`). -/
structure Block where
  id : List Nat
  parent : List Nat
  transactions : List (List Nat)
deriving DecidableEq, Repr

/-- Aptos transaction wrapper used by the reader. -/
inductive AptosTransaction
  | UserTransaction (tx : SignedTransaction)
deriving DecidableEq, Repr

/-- Signature verification tag the reader applies to each transaction. -/
inductive SignatureVerifiedTransaction
  | Valid (t : AptosTransaction)
  | Invalid (t : AptosTransaction)
deriving DecidableEq, Repr

/-- Executable transactions, always unsharded in this code path. -/
inductive ExecutableTransactions
  | Unsharded (txs : List SignatureVerifiedTransaction)
deriving DecidableEq, Repr

/-- `ExecutableBlock` as formed by the reader: the SHA-256 digest of the
blob bytes and the wrapped transactions. -/
structure ExecutableBlock where
  block_hash : List Nat
  transactions : ExecutableTransactions
deriving DecidableEq, Repr

/-- `HashValue::from_slice` accepts exactly 32 bytes. -/
def hashValueFromSlice (bytes : List Nat) : Option (List Nat) :=
  if bytes.length = 32 then some bytes else none

/-- Deserializes every inner transaction of a block, failing if any one
fails (`serde_json::from_slice(&transaction.0)?`). -/
def decodeTransactions (decodeTx : List Nat → Option SignedTransaction) :
    List (List Nat) → Option (List SignedTransaction)
  | [] => some []
  | bytes :: rest =>
      match decodeTx bytes, decodeTransactions decodeTx rest with
      | some tx, some txs => some (tx :: txs)
      | _, _ => none

/-- The block-forming part of the reader's loop body for a
`SequencedBlobBlock` carrying `data`: decode the `Block`, deserialize and
wrap each inner transaction, hash the blob bytes, and form the
`ExecutableBlock`. `decodeBlock` and `decodeTx` are `serde_json::from_slice`
at the two types, `sha256` is the sha2 digest. -/
def mkExecutableBlock
    (decodeBlock : List Nat → Option Block)
    (decodeTx : List Nat → Option SignedTransaction)
    (sha256 : List Nat → List Nat)
    (data : List Nat) : Option ExecutableBlock :=
  match decodeBlock data with
  | none => none
  | some block =>
      match decodeTransactions decodeTx block.transactions with
      | none => none
      | some txs =>
          match hashValueFromSlice (sha256 data) with
          | none => none
          | some block_hash =>
              some { block_hash := block_hash,
                     transactions := .Unsharded
                       (txs.map (fun tx => .Valid (.UserTransaction tx))) }

/-- Outcome of processing one stream item. -/
inductive BlobStep
  | failedEarly (msg : String)
  | execFailed (eb : ExecutableBlock) (msg : String)
  | stepOk (eb : ExecutableBlock) (commitment : Nat)
deriving DecidableEq, Repr

/-- The reader's loop body on one stream item: shape checks
(envelope present, blob type present and equal to `SequencedBlobBlock`),
block formation, then execution. `execute` is
`executor.execute_block(FinalityMode::Opt, _)`, returning a commitment or
an error. -/
def processBlobItem
    (decodeBlock : List Nat → Option Block)
    (decodeTx : List Nat → Option SignedTransaction)
    (sha256 : List Nat → List Nat)
    (execute : ExecutableBlock → Option Nat)
    (item : StreamItem) : BlobStep :=
  match item with
  | .failed msg => .failedEarly msg
  | .ok response =>
      match response.blob with
      | none => .failedEarly "No blob in response"
      | some blob =>
          match blob.blob_type with
          | none => .failedEarly "No blob type in response"
          | some (.PassedThroughBlob _) => .failedEarly "Invalid blob type in response"
          | some (.SequencedBlobBlock data) =>
              match mkExecutableBlock decodeBlock decodeTx sha256 data with
              | none => .failedEarly "Failed to decode block"
              | some eb =>
                  match execute eb with
                  | none => .execFailed eb "Failed to execute block"
                  | some commitment => .stepOk eb commitment

/-- Accumulated effects of the read loop: the blocks handed to the executor
and the commitments posted to the settlement manager, in order. -/
structure ReadEffects where
  executed : List ExecutableBlock
  committed : List Nat
deriving DecidableEq, Repr

/-- Terminal outcome of the read loop. -/
inductive ReadResult
  | ok
  | failed (msg : String)
deriving DecidableEq, Repr

/-- `read_blocks_from_da` over the yielded stream items: each item is shape
checked, decoded, executed and its commitment posted; any failure returns
the error immediately, ending the stream processing. -/
def read_blocks_from_da
    (decodeBlock : List Nat → Option Block)
    (decodeTx : List Nat → Option SignedTransaction)
    (sha256 : List Nat → List Nat)
    (execute : ExecutableBlock → Option Nat) :
    List StreamItem → ReadEffects × ReadResult
  | [] => ({ executed := [], committed := [] }, .ok)
  | item :: rest =>
      match processBlobItem decodeBlock decodeTx sha256 execute item with
      | .failedEarly msg => ({ executed := [], committed := [] }, .failed msg)
      | .execFailed eb msg => ({ executed := [eb], committed := [] }, .failed msg)
      | .stepOk eb commitment =>
          let tail := read_blocks_from_da decodeBlock decodeTx sha256 execute rest
          ({ executed := eb :: tail.1.executed,
             committed := commitment :: tail.1.committed }, tail.2)

/-- The shapes of stream items that fail the reader before any decoding:
a stream-level error, a missing blob envelope, a missing blob type, or a
blob type other than `SequencedBlobBlock`. -/
def badShape : StreamItem → Bool
  | .failed _ => true
  | .ok response =>
      match response.blob with
      | none => true
      | some blob =>
          match blob.blob_type with
          | none => true
          | some (.SequencedBlobBlock _) => false
          | some (.PassedThroughBlob _) => true

/-! ## Quorum event stream (`bridge/shared/src/multiple_sources_of_truth.rs`) -/

/-- What polling one source yields this round: an event, end of the
source's sequence, or nothing yet. -/
inductive SourcePoll (E : Type)
  | ready (e : E)
  | ended
  | pending
deriving DecidableEq, Repr

/-- What `poll_next` returns: `Poll::Ready(Some e)`, `Poll::Ready(None)`,
or `Poll::Pending`. -/
inductive StreamPoll (E : Type)
  | readySome (e : E)
  | readyNone
  | pending
deriving DecidableEq, Repr

/-- True exactly on an emission. -/
def StreamPoll.isEmission {E : Type} : StreamPoll E → Bool
  | .readySome _ => true
  | _ => false

/-- True when polling the source observes the end of its sequence. -/
def SourcePoll.isEnded {E : Type} : SourcePoll E → Bool
  | .ended => true
  | _ => false

/-- State of `MultipleSourceOfTruth`: sources are kept by their stable
`hash_of` id in index order; `emitted_events` maps each pending event to
the set of source ids seen for it (the timer of each entry is modelled by
the per-poll `expired` oracle); `processed` is the processed set. -/
structure MSOTState (E : Type) where
  sources : List Nat
  emitted_events : List (E × List Nat)
  threshold : Nat
  processed : List E
deriving DecidableEq, Repr

/-- `MultipleSourceOfTruth::new`. -/
def MSOTState.new (E : Type) (sources : List Nat) (threshold : Nat) : MSOTState E :=
  { sources := sources, emitted_events := [], threshold := threshold, processed := [] }

/-- Association lookup in the `emitted_events` map. -/
def lookupEvent {E : Type} [DecidableEq E] : List (E × List Nat) → E → Option (List Nat)
  | [], _ => none
  | (e, ids) :: rest, x => if x = e then some ids else lookupEvent rest x

/-- `HashSet::insert` on the id set of an entry. -/
def insertSource (s : Nat) (ids : List Nat) : List Nat :=
  if s ∈ ids then ids else ids ++ [s]

/-- Writes an entry's id set back into the map, creating it if absent
(the `entry(..).or_insert_with(..)` followed by `insert`). -/
def updateEvent {E : Type} [DecidableEq E] : List (E × List Nat) → E → List Nat → List (E × List Nat)
  | [], x, ids => [(x, ids)]
  | (e, old) :: rest, x, ids =>
      if x = e then (x, ids) :: rest else (e, old) :: updateEvent rest x ids

/-- The `retain` pass at the head of `poll_next`: entries whose timer has
fired are removed from `emitted_events` and their events inserted into
`processed`. -/
def retainExpired {E : Type} (expired : E → Bool)
    (entries : List (E × List Nat)) (processed : List E) :
    List (E × List Nat) × List E :=
  (entries.filter (fun p => !expired p.1),
   processed ++ (entries.filter (fun p => expired p.1)).map Prod.fst)

/-- The reverse-index source loop of `poll_next`. The first list is the
sources not yet polled this round, highest index first; `kept` holds the
already-polled survivors in index order. On `Ready(Some e)`: skip if
processed, otherwise record the source id and emit when the threshold is
reached (inserting the event into `processed`). On `Ready(None)`: drop the
source and end the stream if fewer than `threshold` sources remain. -/
def pollSources {E : Type} [DecidableEq E] (threshold : Nat) (inputs : Nat → SourcePoll E) :
    List Nat → List Nat → List (E × List Nat) → List E →
    List Nat × List (E × List Nat) × List E × StreamPoll E
  | [], kept, entries, processed => (kept, entries, processed, .pending)
  | s :: restRev, kept, entries, processed =>
      match inputs s with
      | .pending => pollSources threshold inputs restRev (s :: kept) entries processed
      | .ended =>
          if restRev.length + kept.length < threshold then
            (restRev.reverse ++ kept, entries, processed, .readyNone)
          else
            pollSources threshold inputs restRev kept entries processed
      | .ready e =>
          if e ∈ processed then
            pollSources threshold inputs restRev (s :: kept) entries processed
          else
            let ids := insertSource s ((lookupEvent entries e).getD [])
            let entries' := updateEvent entries e ids
            if threshold ≤ ids.length then
              (restRev.reverse ++ s :: kept, entries', e :: processed, .readySome e)
            else
              pollSources threshold inputs restRev (s :: kept) entries' processed

/-- `poll_next` of the `Stream` implementation: expire timed-out entries,
then drain the sources in reverse index order. `expired` tells which entry
timers have fired this round and `inputs` what each source yields. -/
def MSOT.poll_next {E : Type} [DecidableEq E] (st : MSOTState E)
    (expired : E → Bool) (inputs : Nat → SourcePoll E) :
    MSOTState E × StreamPoll E :=
  let retained := retainExpired expired st.emitted_events st.processed
  let looped := pollSources st.threshold inputs st.sources.reverse [] retained.1 retained.2
  ({ sources := looped.1, emitted_events := looped.2.1,
     threshold := st.threshold, processed := looped.2.2.1 }, looped.2.2.2)

/-- Driving the composed stream: repeated polls under a schedule of
(expiry oracle, source outcomes) pairs, collecting emissions until
`Poll::Ready(None)` ends the stream (or the schedule runs out). -/
def MSOT.run {E : Type} [DecidableEq E] (st : MSOTState E) :
    List ((E → Bool) × (Nat → SourcePoll E)) → MSOTState E × List E
  | [] => (st, [])
  | (expired, inputs) :: rest =>
      match MSOT.poll_next st expired inputs with
      | (st', .readyNone) => (st', [])
      | (st', .readySome e) =>
          let tail := MSOT.run st' rest
          (tail.1, e :: tail.2)
      | (st', .pending) => MSOT.run st' rest

/-- Well-formedness of the `emitted_events` map: every recorded id set has
no duplicates (it models a `HashSet<u64>`). Holds at `new` and is preserved
by every poll. -/
def EntriesWF {E : Type} (entries : List (E × List Nat)) : Prop :=
  ∀ p ∈ entries, (p.2 : List Nat).Nodup

/-! ## Bridge asset types (`bridge/shared/src/types.rs`) -/

/-- Bound of the u64 fields of the asset variants. -/
def U64_MOD : Nat := 2 ^ 64

/-- `AssetType`: either an (Eth, Weth) pair or a Moveth value. -/
inductive AssetType
  | EthAndWeth (eth weth : Nat)
  | Moveth (value : Nat)
deriving DecidableEq, Repr

/-- The `AddAssign` impl for `AssetType`: componentwise u64 `+=` for
matching variants (wrapping semantics of the machine integers), a silent
no-op for mismatched variants. -/
def AssetType.add_assign : AssetType → AssetType → AssetType
  | .Moveth a, .Moveth b => .Moveth ((a + b) % U64_MOD)
  | .EthAndWeth a b, .EthAndWeth c d =>
      .EthAndWeth ((a + c) % U64_MOD) ((b + d) % U64_MOD)
  | left, _ => left

/-! ## Movement initiator client (`bridge/chains/movement/src/lib.rs`) -/

/-- The initiator-side error taxonomy used by the Movement client. -/
inductive BridgeContractInitiatorError
  | SerializationError
  | CallError
  | FunctionViewError
  | InvalidResponseLength
  | InitiateTransferError
  | CompleteTransferError
  | ConversionError
deriving DecidableEq, Repr

/-- An entry-function payload submitted to the chain. -/
structure AptosPayload where
  moduleName : String
  functionName : String
  args : List (List Nat)
deriving DecidableEq, Repr

/-- `MovementClient::initiate_bridge_transfer`: reject a non-Moveth amount
with `ConversionError` before anything is serialized or sent; otherwise
BCS-serialize the arguments (`serializeVec`, `serializeU64` model the
`utils` serializers, whose failures surface as `SerializationError` per the
spec taxonomy — the `utils` module is not under `src/`), build the payload
and submit it (`sendOk` models `send_and_confirm_aptos_transaction`, whose
failure is mapped to `InitiateTransferError`). Returns the payloads handed
to the chain and the call result. -/
def initiate_bridge_transfer
    (serializeVec : List Nat → Option (List Nat))
    (serializeU64 : Nat → Option (List Nat))
    (sendOk : Bool)
    (recipient : List Nat) (hash_lock : List Nat) (amount : AssetType) :
    List AptosPayload × Option BridgeContractInitiatorError :=
  match amount with
  | .Moveth value =>
      match serializeVec recipient, serializeVec hash_lock, serializeU64 value with
      | some a1, some a2, some a3 =>
          let payload : AptosPayload :=
            { moduleName := "atomic_bridge_initiator",
              functionName := "initiate_bridge_transfer",
              args := [a1, a2, a3] }
          if sendOk then ([payload], none)
          else ([payload], some .InitiateTransferError)
      | _, _, _ => ([], some .SerializationError)
  | _ => ([], some .ConversionError)

/-! ## Theorems -/

/-- The load-shed guard of the pipe is written `2^12` in the source; the
Rust caret is XOR, so it is 14. -/
theorem loadShedBound_eq_14 : loadShedBound = 14 := by decide

/-- C1: a `SubmitTransaction` request processed while at least 4096
transactions are in flight is answered with `MempoolIsFull`; the
transaction is neither added to the mempool nor sent on the DA-writer
channel, and the tick returns success. (The code sheds whenever the
counter exceeds 14, which covers every count at or above 4096.) -/
theorem submit_at_or_above_4096_sheds_load
    (addTxn : SignedTransaction → MempoolStatusCode)
    (getByHash : Nat → Option SignedTransaction)
    (inFlight : Nat) (channelOpen : Bool) (tx : SignedTransaction) (gcElapsed : Nat)
    (h : 4096 ≤ inFlight) :
    (tick_transaction_pipe addTxn getByHash inFlight true channelOpen
        (some (.SubmitTransaction tx)) gcElapsed).events = [.replied .MempoolIsFull]
    ∧ (tick_transaction_pipe addTxn getByHash inFlight true channelOpen
        (some (.SubmitTransaction tx)) gcElapsed).mempoolAdds = []
    ∧ (∀ t, PipeEvent.sentToDA t ∉ (tick_transaction_pipe addTxn getByHash inFlight true
        channelOpen (some (.SubmitTransaction tx)) gcElapsed).events)
    ∧ (tick_transaction_pipe addTxn getByHash inFlight true channelOpen
        (some (.SubmitTransaction tx)) gcElapsed).result = .ok := by
  have hgt : inFlight > loadShedBound := by
    rw [loadShedBound_eq_14]; omega
  simp [tick_transaction_pipe, hgt]

/-- Witness for C1 at a concrete overloaded pipe. -/
theorem submit_at_or_above_4096_sheds_load_witness :
    4096 ≤ 5000
    ∧ ((tick_transaction_pipe (fun _ => .Accepted) (fun _ => none) 5000 true true
          (some (.SubmitTransaction ⟨[1], 1⟩)) 0).events = [.replied .MempoolIsFull]
       ∧ (tick_transaction_pipe (fun _ => .Accepted) (fun _ => none) 5000 true true
          (some (.SubmitTransaction ⟨[1], 1⟩)) 0).mempoolAdds = []
       ∧ (∀ t, PipeEvent.sentToDA t ∉ (tick_transaction_pipe (fun _ => .Accepted)
            (fun _ => none) 5000 true true (some (.SubmitTransaction ⟨[1], 1⟩)) 0).events)
       ∧ (tick_transaction_pipe (fun _ => .Accepted) (fun _ => none) 5000 true true
          (some (.SubmitTransaction ⟨[1], 1⟩)) 0).result = .ok) :=
  ⟨by decide,
   submit_at_or_above_4096_sheds_load (fun _ => .Accepted) (fun _ => none) 5000 true
     ⟨[1], 1⟩ 0 (by decide)⟩

/-- C2: the code contradicts the claim's load-shed cap. The source guards
with `in_flight > 2^12`, and in Rust `^` is XOR, so the pipe sheds load
already above 14 in-flight transactions, against its own comment that 4096
are allowed in flight. First conjunct: at 100 in flight (far below 4096), a
submission whose mempool status would be `Accepted` is answered
`MempoolIsFull` and nothing is forwarded. Second conjunct: below the
bound the code actually enforces, the tick forwards exactly the accepted
transaction before replying, and the reply always carries the mempool
status. -/
theorem tick_sheds_below_4096_but_forwards_below_bound :
    ((tick_transaction_pipe (fun _ => .Accepted) (fun _ => none) 100 true true
        (some (.SubmitTransaction ⟨[1], 1⟩)) 0) =
      { events := [.replied .MempoolIsFull], mempoolAdds := [],
        inFlightAfter := 100, gcRan := false, result := .ok })
    ∧ (∀ (addTxn : SignedTransaction → MempoolStatusCode)
        (getByHash : Nat → Option SignedTransaction)
        (inFlight : Nat) (tx : SignedTransaction) (gcElapsed : Nat),
        inFlight ≤ loadShedBound →
        ((addTxn tx = .Accepted →
          (tick_transaction_pipe addTxn getByHash inFlight true true
            (some (.SubmitTransaction tx)) gcElapsed).events =
              [.sentToDA tx, .replied .Accepted])
         ∧ (addTxn tx ≠ .Accepted →
          (tick_transaction_pipe addTxn getByHash inFlight true true
            (some (.SubmitTransaction tx)) gcElapsed).events =
              [.replied (addTxn tx)]))) := by
  constructor
  · decide
  · intro addTxn getByHash inFlight tx gcElapsed hle
    have hngt : ¬ loadShedBound < inFlight := by omega
    constructor
    · intro hacc
      simp [tick_transaction_pipe, hngt, hacc]
    · intro hnacc
      cases hst : addTxn tx
      case Accepted => exact absurd hst hnacc
      all_goals
        simp only [tick_transaction_pipe, hst]
        rw [if_neg hngt]
        simp

/-- Witness for C2's second conjunct at a concrete lightly loaded pipe. -/
theorem tick_sheds_below_4096_but_forwards_below_bound_witness :
    (tick_transaction_pipe (fun _ => .Accepted) (fun _ => none) 3 true true
      (some (.SubmitTransaction ⟨[2], 7⟩)) 0).events =
        [.sentToDA ⟨[2], 7⟩, .replied .Accepted] :=
  (tick_sheds_below_4096_but_forwards_below_bound.2 (fun _ => .Accepted) (fun _ => none)
    3 ⟨[2], 7⟩ 0 (by decide)).1 rfl

/-- C5: the in-flight counter is never incremented by the tick — the
`fetch_add` only exists inside commented-out code — so an accepted and
forwarded transaction leaves `transactions_in_flight` unchanged. First
conjunct: the counter after any tick equals the counter before. Second
conjunct: a concrete accepted submission is forwarded to the DA channel
yet the counter stays at 0. -/
theorem tick_never_increments_in_flight :
    (∀ (addTxn : SignedTransaction → MempoolStatusCode)
       (getByHash : Nat → Option SignedTransaction)
       (inFlight : Nat) (callbackAlive channelOpen : Bool)
       (request : Option MempoolClientRequest) (gcElapsed : Nat),
       (tick_transaction_pipe addTxn getByHash inFlight callbackAlive channelOpen
          request gcElapsed).inFlightAfter = inFlight)
    ∧ ((tick_transaction_pipe (fun _ => .Accepted) (fun _ => none) 0 true true
          (some (.SubmitTransaction ⟨[1], 1⟩)) 0).events =
            [.sentToDA ⟨[1], 1⟩, .replied .Accepted]
       ∧ (tick_transaction_pipe (fun _ => .Accepted) (fun _ => none) 0 true true
          (some (.SubmitTransaction ⟨[1], 1⟩)) 0).inFlightAfter = 0) := by
  refine ⟨?_, by decide, by decide⟩
  intro addTxn getByHash inFlight callbackAlive channelOpen request gcElapsed
  rcases request with _ | (tx | h)
  · rfl
  · by_cases hb : inFlight > loadShedBound
    · cases callbackAlive <;> simp [tick_transaction_pipe, hb]
    · cases hst : addTxn tx <;> cases callbackAlive <;> cases channelOpen <;>
        simp [tick_transaction_pipe, hb, hst]
  · cases callbackAlive <;> simp [tick_transaction_pipe]

/-- C7: a writer tick makes at most one `batch_write` call; it makes none
when no transaction was received, and when at least one was received the
single call carries exactly the received transactions, serialized, in
order. -/
theorem tick_write_single_batch
    (encodeTx : SignedTransaction → List Nat) (events : List RecvEvent) :
    (tick_write_transactions_to_da encodeTx events).length ≤ 1
    ∧ (receiveTransactions events = [] →
        tick_write_transactions_to_da encodeTx events = [])
    ∧ (receiveTransactions events ≠ [] →
        tick_write_transactions_to_da encodeTx events =
          [(receiveTransactions events).map encodeTx]) := by
  cases h : receiveTransactions events <;>
    simp [tick_write_transactions_to_da, h]

/-- Witness for C7: one received transaction, then a timeout. -/
theorem tick_write_single_batch_witness :
    tick_write_transactions_to_da (fun tx => tx.payload)
      [.received ⟨[7], 1⟩ false, .timedOut] = [[[7]]] :=
  (tick_write_single_batch (fun tx => tx.payload)
    [.received ⟨[7], 1⟩ false, .timedOut]).2.2 (by decide)

/-- C9: `initiate_bridge_transfer` rejects a non-Moveth amount with
`ConversionError` before any payload is submitted to the chain, and a
Moveth amount never produces `ConversionError` (its only failures are
serialization or submission errors). -/
theorem initiate_rejects_cross_variant_amount
    (serializeVec : List Nat → Option (List Nat))
    (serializeU64 : Nat → Option (List Nat))
    (sendOk : Bool) (recipient hash_lock : List Nat) :
    (∀ eth weth,
      initiate_bridge_transfer serializeVec serializeU64 sendOk recipient hash_lock
        (.EthAndWeth eth weth) = ([], some .ConversionError))
    ∧ (∀ value,
      (initiate_bridge_transfer serializeVec serializeU64 sendOk recipient hash_lock
        (.Moveth value)).2 ≠ some .ConversionError) := by
  refine ⟨fun eth weth => rfl, ?_⟩
  intro value
  simp only [initiate_bridge_transfer]
  cases serializeVec recipient <;> cases serializeVec hash_lock <;>
    cases serializeU64 value <;> cases sendOk <;> simp

/-- Witness for C9 at a concrete EthAndWeth amount. -/
theorem initiate_rejects_cross_variant_amount_witness :
    initiate_bridge_transfer (fun l => some l) (fun n => some [n]) true [1] [2]
      (.EthAndWeth 3 4) = ([], some .ConversionError) :=
  (initiate_rejects_cross_variant_amount (fun l => some l) (fun n => some [n])
    true [1] [2]).1 3 4

/-- C10: `AddAssign` on `AssetType` leaves the left operand unchanged for
mismatched variants (and cannot fail), and adds componentwise, with u64
wrapping, for matching variants. -/
theorem add_assign_componentwise_or_noop :
    (∀ eth weth value,
      AssetType.add_assign (.EthAndWeth eth weth) (.Moveth value) = .EthAndWeth eth weth)
    ∧ (∀ value eth weth,
      AssetType.add_assign (.Moveth value) (.EthAndWeth eth weth) = .Moveth value)
    ∧ (∀ a b, AssetType.add_assign (.Moveth a) (.Moveth b) = .Moveth ((a + b) % U64_MOD))
    ∧ (∀ a b c d,
      AssetType.add_assign (.EthAndWeth a b) (.EthAndWeth c d) =
        .EthAndWeth ((a + c) % U64_MOD) ((b + d) % U64_MOD)) :=
  ⟨fun _ _ _ => rfl, fun _ _ _ => rfl, fun _ _ => rfl, fun _ _ _ _ => rfl⟩

/-- A bad-shaped stream item makes the reader's loop body fail before any
decoding or execution. -/
theorem processBlobItem_badShape
    (decodeBlock : List Nat → Option Block) (decodeTx : List Nat → Option SignedTransaction)
    (sha256 : List Nat → List Nat) (execute : ExecutableBlock → Option Nat)
    (item : StreamItem) (h : badShape item = true) :
    ∃ msg, processBlobItem decodeBlock decodeTx sha256 execute item = .failedEarly msg := by
  rcases item with msg | ⟨blob⟩
  · exact ⟨msg, rfl⟩
  · rcases blob with _ | ⟨bt⟩
    · exact ⟨"No blob in response", rfl⟩
    · rcases bt with _ | (data | data)
      · exact ⟨"No blob type in response", rfl⟩
      · simp [badShape] at h
      · exact ⟨"Invalid blob type in response", rfl⟩

/-- C8: if any yielded stream item lacks the blob envelope, lacks the blob
type, is a stream-level error, or carries a variant other than
`SequencedBlobBlock`, the reader returns an error; no block from that item
or a later one is executed and no commitment is posted — the effects are
exactly those of the well-formed prefix. -/
theorem reader_halts_on_bad_blob
    (decodeBlock : List Nat → Option Block) (decodeTx : List Nat → Option SignedTransaction)
    (sha256 : List Nat → List Nat) (execute : ExecutableBlock → Option Nat)
    (pre : List StreamItem) (bad : StreamItem) (rest : List StreamItem)
    (hpre : (read_blocks_from_da decodeBlock decodeTx sha256 execute pre).2 = .ok)
    (hbad : badShape bad = true) :
    (∃ msg, (read_blocks_from_da decodeBlock decodeTx sha256 execute
        (pre ++ bad :: rest)).2 = .failed msg)
    ∧ (read_blocks_from_da decodeBlock decodeTx sha256 execute (pre ++ bad :: rest)).1 =
        (read_blocks_from_da decodeBlock decodeTx sha256 execute pre).1 := by
  induction pre with
  | nil =>
      obtain ⟨msg, hm⟩ :=
        processBlobItem_badShape decodeBlock decodeTx sha256 execute bad hbad
      simp only [List.nil_append, read_blocks_from_da, hm]
      exact ⟨⟨msg, rfl⟩, trivial⟩
  | cons item pre ih =>
      simp only [read_blocks_from_da, List.cons_append] at hpre ⊢
      cases hstep : processBlobItem decodeBlock decodeTx sha256 execute item with
      | failedEarly msg => rw [hstep] at hpre; simp at hpre
      | execFailed eb msg => rw [hstep] at hpre; simp at hpre
      | stepOk eb c =>
          rw [hstep] at hpre
          dsimp only at hpre ⊢
          simp only [List.append_eq] at hpre ⊢
          obtain ⟨⟨msg, h1⟩, h2⟩ := ih hpre
          exact ⟨⟨msg, h1⟩, by rw [h2]⟩

/-- Witness for C8: a single response with no blob envelope. -/
theorem reader_halts_on_bad_blob_witness :
    (∃ msg, (read_blocks_from_da (fun _ => none) (fun _ => none) (fun _ => [])
        (fun _ => none) ([] ++ StreamItem.ok ⟨none⟩ :: [])).2 = .failed msg)
    ∧ (read_blocks_from_da (fun _ => none) (fun _ => none) (fun _ => [])
        (fun _ => none) ([] ++ StreamItem.ok ⟨none⟩ :: [])).1 =
      (read_blocks_from_da (fun _ => none) (fun _ => none) (fun _ => [])
        (fun _ => none) []).1 :=
  reader_halts_on_bad_blob (fun _ => none) (fun _ => none) (fun _ => [])
    (fun _ => none) [] (StreamItem.ok ⟨none⟩) [] rfl (by decide)

/-- Deserializing the writer's serializations recovers the transactions. -/
theorem decodeTransactions_map
    (decodeTx : List Nat → Option SignedTransaction)
    (encodeTx : SignedTransaction → List Nat)
    (txs : List SignedTransaction)
    (h : ∀ t ∈ txs, decodeTx (encodeTx t) = some t) :
    decodeTransactions decodeTx (txs.map encodeTx) = some txs := by
  induction txs with
  | nil => rfl
  | cons t ts ih =>
      simp only [List.map_cons, decodeTransactions]
      rw [h t (by simp), ih (fun x hx => h x (by simp [hx]))]

/-- C4: for a sequenced blob whose data decodes to a block B carrying the
writer's serialized transactions, the reader forms an `ExecutableBlock`
whose hash is the SHA-256 digest of the blob's data bytes and whose
transaction sequence is B's, in order, each deserialized back to the
`SignedTransaction` the writer serialized and wrapped as
`Valid (UserTransaction _)`. -/
theorem reader_inverts_writer_block
    (decodeBlock : List Nat → Option Block) (decodeTx : List Nat → Option SignedTransaction)
    (sha256 : List Nat → List Nat) (encodeTx : SignedTransaction → List Nat)
    (blockBytes : List Nat) (B : Block) (events : List RecvEvent)
    (hB : decodeBlock blockBytes = some B)
    (htxs : B.transactions = (receiveTransactions events).map encodeTx)
    (hrt : ∀ t ∈ receiveTransactions events, decodeTx (encodeTx t) = some t)
    (hlen : (sha256 blockBytes).length = 32) :
    mkExecutableBlock decodeBlock decodeTx sha256 blockBytes =
      some { block_hash := sha256 blockBytes,
             transactions := .Unsharded ((receiveTransactions events).map
               (fun t => .Valid (.UserTransaction t))) } := by
  simp [mkExecutableBlock, hB, htxs, hashValueFromSlice, hlen,
    decodeTransactions_map decodeTx encodeTx _ hrt]

/-- The source loop only ever adds to the processed set. -/
theorem pollSources_processed_mono {E : Type} [DecidableEq E]
    (threshold : Nat) (inputs : Nat → SourcePoll E) :
    ∀ (rs kept : List Nat) (entries : List (E × List Nat)) (processed : List E) (x : E),
    x ∈ processed → x ∈ (pollSources threshold inputs rs kept entries processed).2.2.1 := by
  intro rs
  induction rs with
  | nil =>
      intro kept entries processed x hx
      simpa [pollSources] using hx
  | cons s rest ih =>
      intro kept entries processed x hx
      cases hin : inputs s with
      | pending =>
          simp only [pollSources, hin]
          exact ih _ _ _ _ hx
      | ended =>
          simp only [pollSources, hin]
          by_cases hlen : rest.length + kept.length < threshold
          · rw [if_pos hlen]
            simpa using hx
          · rw [if_neg hlen]
            exact ih _ _ _ _ hx
      | ready e =>
          simp only [pollSources, hin]
          by_cases hmem : e ∈ processed
          · rw [if_pos hmem]
            exact ih _ _ _ _ hx
          · rw [if_neg hmem]
            by_cases hth : threshold ≤ (insertSource s ((lookupEvent entries e).getD [])).length
            · rw [if_pos hth]
              simpa using List.mem_cons_of_mem _ hx
            · rw [if_neg hth]
              exact ih _ _ _ _ hx

/-- An emitted event was not in the processed set the loop started from. -/
theorem pollSources_emit_not_processed {E : Type} [DecidableEq E]
    (threshold : Nat) (inputs : Nat → SourcePoll E) :
    ∀ (rs kept : List Nat) (entries : List (E × List Nat)) (processed : List E) (x : E),
    (pollSources threshold inputs rs kept entries processed).2.2.2 = .readySome x →
    x ∉ processed := by
  intro rs
  induction rs with
  | nil =>
      intro kept entries processed x hx
      simp [pollSources] at hx
  | cons s rest ih =>
      intro kept entries processed x hx
      cases hin : inputs s with
      | pending =>
          simp only [pollSources, hin] at hx
          exact ih _ _ _ _ hx
      | ended =>
          simp only [pollSources, hin] at hx
          by_cases hlen : rest.length + kept.length < threshold
          · rw [if_pos hlen] at hx
            simp at hx
          · rw [if_neg hlen] at hx
            exact ih _ _ _ _ hx
      | ready e =>
          simp only [pollSources, hin] at hx
          by_cases hmem : e ∈ processed
          · rw [if_pos hmem] at hx
            exact ih _ _ _ _ hx
          · rw [if_neg hmem] at hx
            by_cases hth : threshold ≤ (insertSource s ((lookupEvent entries e).getD [])).length
            · rw [if_pos hth] at hx
              simp at hx
              subst hx
              exact hmem
            · rw [if_neg hth] at hx
              exact ih _ _ _ _ hx

/-- An emitted event lands in the resulting processed set. -/
theorem pollSources_emit_mem_processed {E : Type} [DecidableEq E]
    (threshold : Nat) (inputs : Nat → SourcePoll E) :
    ∀ (rs kept : List Nat) (entries : List (E × List Nat)) (processed : List E) (x : E),
    (pollSources threshold inputs rs kept entries processed).2.2.2 = .readySome x →
    x ∈ (pollSources threshold inputs rs kept entries processed).2.2.1 := by
  intro rs
  induction rs with
  | nil =>
      intro kept entries processed x hx
      simp [pollSources] at hx
  | cons s rest ih =>
      intro kept entries processed x hx
      cases hin : inputs s with
      | pending =>
          simp only [pollSources, hin] at hx ⊢
          exact ih _ _ _ _ hx
      | ended =>
          simp only [pollSources, hin] at hx ⊢
          by_cases hlen : rest.length + kept.length < threshold
          · rw [if_pos hlen] at hx
            simp at hx
          · rw [if_neg hlen] at hx ⊢
            exact ih _ _ _ _ hx
      | ready e =>
          simp only [pollSources, hin] at hx ⊢
          by_cases hmem : e ∈ processed
          · rw [if_pos hmem] at hx ⊢
            exact ih _ _ _ _ hx
          · rw [if_neg hmem] at hx ⊢
            by_cases hth : threshold ≤ (insertSource s ((lookupEvent entries e).getD [])).length
            · rw [if_pos hth] at hx ⊢
              simp at hx ⊢
              exact Or.inl hx.symm
            · rw [if_neg hth] at hx ⊢
              exact ih _ _ _ _ hx

/-- A poll only ever adds to the processed set. -/
theorem poll_next_processed_mono {E : Type} [DecidableEq E]
    (st : MSOTState E) (expired : E → Bool) (inputs : Nat → SourcePoll E)
    (x : E) (hx : x ∈ st.processed) :
    x ∈ (MSOT.poll_next st expired inputs).1.processed := by
  dsimp only [MSOT.poll_next]
  exact pollSources_processed_mono _ _ _ _ _ _ _ (List.mem_append_left _ hx)

/-- An event emitted by a poll was not processed (nor newly expired) when
the source loop began. -/
theorem poll_next_emit_fresh {E : Type} [DecidableEq E]
    (st : MSOTState E) (expired : E → Bool) (inputs : Nat → SourcePoll E)
    (x : E) (h : (MSOT.poll_next st expired inputs).2 = .readySome x) :
    x ∉ (retainExpired expired st.emitted_events st.processed).2 := by
  dsimp only [MSOT.poll_next] at h
  exact pollSources_emit_not_processed _ _ _ _ _ _ _ h

/-- An event emitted by a poll is processed afterwards. -/
theorem poll_next_emit_mem {E : Type} [DecidableEq E]
    (st : MSOTState E) (expired : E → Bool) (inputs : Nat → SourcePoll E)
    (x : E) (h : (MSOT.poll_next st expired inputs).2 = .readySome x) :
    x ∈ (MSOT.poll_next st expired inputs).1.processed := by
  dsimp only [MSOT.poll_next] at h ⊢
  exact pollSources_emit_mem_processed _ _ _ _ _ _ _ h

/-- A processed event is never emitted again by any later run. -/
theorem run_not_mem_of_processed {E : Type} [DecidableEq E] :
    ∀ (ticks : List ((E → Bool) × (Nat → SourcePoll E))) (st : MSOTState E) (x : E),
    x ∈ st.processed → x ∉ (MSOT.run st ticks).2 := by
  intro ticks
  induction ticks with
  | nil => intro st x hx; simp [MSOT.run]
  | cons t rest ih =>
      intro st x hx
      obtain ⟨expired, inputs⟩ := t
      simp only [MSOT.run]
      rcases hp : MSOT.poll_next st expired inputs with ⟨st', r⟩
      have hst' : (MSOT.poll_next st expired inputs).1 = st' := by rw [hp]
      cases r with
      | readyNone => simp
      | readySome e =>
          dsimp only
          have h2 : (MSOT.poll_next st expired inputs).2 = .readySome e := by rw [hp]
          have hne : x ≠ e := by
            intro hxe
            exact poll_next_emit_fresh st expired inputs e h2
              (hxe ▸ List.mem_append_left _ hx)
          have hx' : x ∈ st'.processed := by
            rw [← hst']
            exact poll_next_processed_mono st expired inputs x hx
          simp only [List.mem_cons, not_or]
          exact ⟨hne, ih st' x hx'⟩
      | pending =>
          have hx' : x ∈ st'.processed := by
            rw [← hst']
            exact poll_next_processed_mono st expired inputs x hx
          exact ih st' x hx'

/-- The sequence of events a run emits contains no duplicates. -/
theorem run_nodup {E : Type} [DecidableEq E] :
    ∀ (ticks : List ((E → Bool) × (Nat → SourcePoll E))) (st : MSOTState E),
    ((MSOT.run st ticks).2).Nodup := by
  intro ticks
  induction ticks with
  | nil => intro st; simp [MSOT.run]
  | cons t rest ih =>
      intro st
      obtain ⟨expired, inputs⟩ := t
      simp only [MSOT.run]
      rcases hp : MSOT.poll_next st expired inputs with ⟨st', r⟩
      have hst' : (MSOT.poll_next st expired inputs).1 = st' := by rw [hp]
      cases r with
      | readyNone => simp
      | readySome e =>
          dsimp only
          have h2 : (MSOT.poll_next st expired inputs).2 = .readySome e := by rw [hp]
          have he : e ∈ st'.processed := by
            rw [← hst']
            exact poll_next_emit_mem st expired inputs e h2
          exact List.nodup_cons.mpr ⟨run_not_mem_of_processed rest st' e he, ih st'⟩
      | pending => exact ih st'

/-- Set insertion keeps an id list duplicate free. -/
theorem insertSource_nodup (s : Nat) (ids : List Nat) (h : ids.Nodup) :
    (insertSource s ids).Nodup := by
  unfold insertSource
  split
  · exact h
  · rename_i hmem
    simp [List.nodup_append, h, hmem]

/-- A successful lookup returns an entry of the map. -/
theorem lookupEvent_mem {E : Type} [DecidableEq E] :
    ∀ (entries : List (E × List Nat)) (x : E) (ids : List Nat),
    lookupEvent entries x = some ids → (x, ids) ∈ entries := by
  intro entries
  induction entries with
  | nil => intro x ids h; simp [lookupEvent] at h
  | cons p rest ih =>
      intro x ids h
      obtain ⟨e, l⟩ := p
      simp only [lookupEvent] at h
      by_cases hx : x = e
      · rw [if_pos hx] at h
        cases h
        subst hx
        exact List.mem_cons_self _ _
      · rw [if_neg hx] at h
        exact List.mem_cons_of_mem _ (ih x ids h)

/-- The id list stored for any event of a well-formed map is duplicate
free, also after the default for a missing entry. -/
theorem lookup_getD_nodup {E : Type} [DecidableEq E]
    (entries : List (E × List Nat)) (e : E) (hWF : EntriesWF entries) :
    ((lookupEvent entries e).getD []).Nodup := by
  cases hlk : lookupEvent entries e with
  | none => simp
  | some l =>
      simpa using hWF (e, l) (lookupEvent_mem entries e l hlk)

/-- Looking up the event just written returns the written id list. -/
theorem lookupEvent_updateEvent {E : Type} [DecidableEq E] :
    ∀ (entries : List (E × List Nat)) (x : E) (ids : List Nat),
    lookupEvent (updateEvent entries x ids) x = some ids := by
  intro entries
  induction entries with
  | nil => intro x ids; simp [updateEvent, lookupEvent]
  | cons p rest ih =>
      intro x ids
      obtain ⟨e, l⟩ := p
      simp only [updateEvent]
      by_cases hx : x = e
      · rw [if_pos hx]
        simp [lookupEvent]
      · rw [if_neg hx]
        simp only [lookupEvent, if_neg hx]
        exact ih x ids

/-- Writing a duplicate-free id list preserves map well-formedness. -/
theorem updateEvent_WF {E : Type} [DecidableEq E] :
    ∀ (entries : List (E × List Nat)) (x : E) (ids : List Nat),
    EntriesWF entries → ids.Nodup → EntriesWF (updateEvent entries x ids) := by
  intro entries
  induction entries with
  | nil =>
      intro x ids _ hids p hp
      simp only [updateEvent] at hp
      simp only [List.mem_singleton] at hp
      subst hp
      exact hids
  | cons q rest ih =>
      intro x ids hWF hids p hp
      obtain ⟨e, l⟩ := q
      simp only [updateEvent] at hp
      by_cases hx : x = e
      · rw [if_pos hx] at hp
        rcases List.mem_cons.mp hp with h | h
        · subst h; exact hids
        · exact hWF p (List.mem_cons_of_mem _ h)
      · rw [if_neg hx] at hp
        rcases List.mem_cons.mp hp with h | h
        · subst h; exact hWF (e, l) (List.mem_cons_self _ _)
        · exact ih x ids (fun q hq => hWF q (List.mem_cons_of_mem _ hq)) hids p h

/-- When the source loop emits an event, the resulting map holds a
duplicate-free id list for it of at least threshold size. -/
theorem pollSources_emit_entry {E : Type} [DecidableEq E]
    (threshold : Nat) (inputs : Nat → SourcePoll E) :
    ∀ (rs kept : List Nat) (entries : List (E × List Nat)) (processed : List E) (x : E),
    EntriesWF entries →
    (pollSources threshold inputs rs kept entries processed).2.2.2 = .readySome x →
    ∃ ids, lookupEvent (pollSources threshold inputs rs kept entries processed).2.1 x = some ids
      ∧ ids.Nodup ∧ threshold ≤ ids.length := by
  intro rs
  induction rs with
  | nil =>
      intro kept entries processed x _ hx
      simp [pollSources] at hx
  | cons s rest ih =>
      intro kept entries processed x hWF hx
      cases hin : inputs s with
      | pending =>
          simp only [pollSources, hin] at hx ⊢
          exact ih _ _ _ _ hWF hx
      | ended =>
          simp only [pollSources, hin] at hx ⊢
          by_cases hlen : rest.length + kept.length < threshold
          · rw [if_pos hlen] at hx
            simp at hx
          · rw [if_neg hlen] at hx ⊢
            exact ih _ _ _ _ hWF hx
      | ready e =>
          simp only [pollSources, hin] at hx ⊢
          by_cases hmem : e ∈ processed
          · rw [if_pos hmem] at hx ⊢
            exact ih _ _ _ _ hWF hx
          · rw [if_neg hmem] at hx ⊢
            have hnd : (insertSource s ((lookupEvent entries e).getD [])).Nodup :=
              insertSource_nodup s _ (lookup_getD_nodup entries e hWF)
            by_cases hth : threshold ≤ (insertSource s ((lookupEvent entries e).getD [])).length
            · rw [if_pos hth] at hx ⊢
              simp at hx ⊢
              subst hx
              exact ⟨_, lookupEvent_updateEvent entries _ _, hnd, hth⟩
            · rw [if_neg hth] at hx ⊢
              exact ih _ _ _ _ (updateEvent_WF entries e _ hWF hnd) hx

/-- Retaining only unexpired entries preserves map well-formedness. -/
theorem retainExpired_WF {E : Type} [DecidableEq E]
    (expired : E → Bool) (entries : List (E × List Nat)) (processed : List E)
    (hWF : EntriesWF entries) :
    EntriesWF (retainExpired expired entries processed).1 := by
  intro p hp
  exact hWF p (List.mem_filter.mp hp).1

/-- C3: across any whole run of the quorum stream no event value is
emitted twice; a poll emits an event only when at least `threshold`
distinct source ids are recorded for it in the event map; and an event
that is already processed, or whose pending entry has expired at this
poll, is never the emitted event of the poll. -/
theorem msot_quorum_invariants {E : Type} [DecidableEq E] :
    (∀ (st : MSOTState E) (ticks : List ((E → Bool) × (Nat → SourcePoll E))),
       ((MSOT.run st ticks).2).Nodup)
    ∧ (∀ (st : MSOTState E) (expired : E → Bool) (inputs : Nat → SourcePoll E) (x : E),
       EntriesWF st.emitted_events →
       (MSOT.poll_next st expired inputs).2 = .readySome x →
       ∃ ids, lookupEvent (MSOT.poll_next st expired inputs).1.emitted_events x = some ids
         ∧ ids.Nodup ∧ st.threshold ≤ ids.length)
    ∧ (∀ (st : MSOTState E) (expired : E → Bool) (inputs : Nat → SourcePoll E) (x : E),
       (x ∈ st.processed ∨
         ((lookupEvent st.emitted_events x).isSome = true ∧ expired x = true)) →
       (MSOT.poll_next st expired inputs).2 ≠ .readySome x) := by
  refine ⟨fun st ticks => run_nodup ticks st, ?_, ?_⟩
  · intro st expired inputs x hWF hx
    dsimp only [MSOT.poll_next] at hx ⊢
    exact pollSources_emit_entry st.threshold inputs _ _ _ _ x
      (retainExpired_WF expired st.emitted_events st.processed hWF) hx
  · intro st expired inputs x hcase hx
    have hfresh := poll_next_emit_fresh st expired inputs x hx
    apply hfresh
    rcases hcase with hmem | ⟨hsome, hexp⟩
    · exact List.mem_append_left _ hmem
    · cases hlk : lookupEvent st.emitted_events x with
      | none => rw [hlk] at hsome; simp at hsome
      | some ids =>
          refine List.mem_append_right _ ?_
          refine List.mem_map.mpr ⟨(x, ids), List.mem_filter.mpr ⟨?_, ?_⟩, rfl⟩
          · exact lookupEvent_mem st.emitted_events x ids hlk
          · simpa using hexp

/-- Witness for C3's emission-threshold part: a second distinct source
pushes event 5 over threshold 2. -/
theorem msot_quorum_invariants_witness :
    ∃ ids, lookupEvent (MSOT.poll_next
        (⟨[0, 1], [(5, [0])], 2, []⟩ : MSOTState Nat)
        (fun _ => false) (fun _ => .ready 5)).1.emitted_events 5 = some ids
      ∧ ids.Nodup ∧ (2 : Nat) ≤ ids.length :=
  msot_quorum_invariants.2.1 (⟨[0, 1], [(5, [0])], 2, []⟩ : MSOTState Nat)
    (fun _ => false) (fun _ => .ready 5) 5 (by unfold EntriesWF; decide) (by decide)

/-- Full characterization of the source loop, for every poll. The reversed
source list splits into the polled prefix `pRev` and the unreached suffix
`uRev`; the surviving sources are the unreached ones followed by the polled
ones not observed ended (each in index order, after the initial `kept`); a
pending result means every source was polled; end-of-stream implies an
observed ending with fewer than `threshold` survivors, and any other result
with an observed ending leaves at least `threshold` survivors (each removal
re-checks the count, and only removals shrink it). -/
theorem pollSources_characterization {E : Type} [DecidableEq E]
    (threshold : Nat) (inputs : Nat → SourcePoll E) :
    ∀ (rs kept : List Nat) (entries : List (E × List Nat)) (processed : List E),
    ∃ pRev uRev : List Nat,
      rs = pRev ++ uRev
      ∧ (pollSources threshold inputs rs kept entries processed).1 =
          uRev.reverse ++ (pRev.reverse.filter (fun s => !(inputs s).isEnded) ++ kept)
      ∧ ((pollSources threshold inputs rs kept entries processed).2.2.2 = .pending →
          uRev = [])
      ∧ ((pollSources threshold inputs rs kept entries processed).2.2.2 = .readyNone →
          (∃ s ∈ pRev, (inputs s).isEnded = true)
          ∧ (pollSources threshold inputs rs kept entries processed).1.length < threshold)
      ∧ ((pollSources threshold inputs rs kept entries processed).2.2.2 ≠ .readyNone →
          (∃ s ∈ pRev, (inputs s).isEnded = true) →
          threshold ≤ (pollSources threshold inputs rs kept entries processed).1.length) := by
  intro rs
  induction rs with
  | nil =>
      intro kept entries processed
      refine ⟨[], [], rfl, by simp [pollSources], fun _ => rfl, ?_, ?_⟩
      · intro h; simp [pollSources] at h
      · rintro _ ⟨t, ht, -⟩; simp at ht
  | cons s rest ih =>
      intro kept entries processed
      cases hin : inputs s with
      | pending =>
          simp only [pollSources, hin]
          obtain ⟨pRev, uRev, hA, hB, hC, hD, hE⟩ := ih (s :: kept) entries processed
          refine ⟨s :: pRev, uRev, by rw [hA]; rfl, ?_, hC, ?_, ?_⟩
          · rw [hB]
            simp [List.reverse_cons, List.filter_append, List.append_assoc, hin,
              SourcePoll.isEnded]
          · intro h
            obtain ⟨⟨t, ht, htE⟩, hl⟩ := hD h
            exact ⟨⟨t, List.mem_cons_of_mem _ ht, htE⟩, hl⟩
          · rintro h ⟨t, ht, htE⟩
            rcases List.mem_cons.mp ht with rfl | ht'
            · rw [hin] at htE
              simp [SourcePoll.isEnded] at htE
            · exact hE h ⟨t, ht', htE⟩
      | ended =>
          simp only [pollSources, hin]
          by_cases hlen : rest.length + kept.length < threshold
          · rw [if_pos hlen]
            refine ⟨[s], rest, rfl, ?_, ?_, ?_, ?_⟩
            · simp [hin, SourcePoll.isEnded]
            · intro h; simp at h
            · intro _
              refine ⟨⟨s, by simp, by simp [hin, SourcePoll.isEnded]⟩, ?_⟩
              simpa using hlen
            · intro h; exact absurd rfl h
          · rw [if_neg hlen]
            obtain ⟨pRev, uRev, hA, hB, hC, hD, hE⟩ := ih kept entries processed
            refine ⟨s :: pRev, uRev, by rw [hA]; rfl, ?_, hC, ?_, ?_⟩
            · rw [hB]
              simp [List.reverse_cons, List.filter_append, List.append_assoc, hin,
                SourcePoll.isEnded]
            · intro h
              obtain ⟨⟨t, ht, htE⟩, hl⟩ := hD h
              exact ⟨⟨t, List.mem_cons_of_mem _ ht, htE⟩, hl⟩
            · intro h _
              by_cases hex : ∃ t ∈ pRev, (inputs t).isEnded = true
              · exact hE h hex
              · push_neg at hex
                have hfilter : pRev.reverse.filter (fun s' => !(inputs s').isEnded) =
                    pRev.reverse := by
                  apply List.filter_eq_self.mpr
                  intro t ht
                  simp [hex t (List.mem_reverse.mp ht)]
                have hlenA : rest.length = pRev.length + uRev.length := by
                  rw [hA]; simp
                rw [hB, hfilter]
                simp only [List.length_append, List.length_reverse]
                omega
      | ready e =>
          simp only [pollSources, hin]
          by_cases hmem : e ∈ processed
          · rw [if_pos hmem]
            obtain ⟨pRev, uRev, hA, hB, hC, hD, hE⟩ := ih (s :: kept) entries processed
            refine ⟨s :: pRev, uRev, by rw [hA]; rfl, ?_, hC, ?_, ?_⟩
            · rw [hB]
              simp [List.reverse_cons, List.filter_append, List.append_assoc, hin,
                SourcePoll.isEnded]
            · intro h
              obtain ⟨⟨t, ht, htE⟩, hl⟩ := hD h
              exact ⟨⟨t, List.mem_cons_of_mem _ ht, htE⟩, hl⟩
            · rintro h ⟨t, ht, htE⟩
              rcases List.mem_cons.mp ht with rfl | ht'
              · rw [hin] at htE
                simp [SourcePoll.isEnded] at htE
              · exact hE h ⟨t, ht', htE⟩
          · rw [if_neg hmem]
            by_cases hth : threshold ≤ (insertSource s ((lookupEvent entries e).getD [])).length
            · rw [if_pos hth]
              refine ⟨[s], rest, rfl, ?_, ?_, ?_, ?_⟩
              · simp [hin, SourcePoll.isEnded]
              · intro h; simp at h
              · intro h; simp at h
              · rintro _ ⟨t, ht, htE⟩
                rcases List.mem_cons.mp ht with rfl | ht'
                · rw [hin] at htE
                  simp [SourcePoll.isEnded] at htE
                · simp at ht'
            · rw [if_neg hth]
              obtain ⟨pRev, uRev, hA, hB, hC, hD, hE⟩ := ih (s :: kept)
                (updateEvent entries e (insertSource s ((lookupEvent entries e).getD [])))
                processed
              refine ⟨s :: pRev, uRev, by rw [hA]; rfl, ?_, hC, ?_, ?_⟩
              · rw [hB]
                simp [List.reverse_cons, List.filter_append, List.append_assoc, hin,
                  SourcePoll.isEnded]
              · intro h
                obtain ⟨⟨t, ht, htE⟩, hl⟩ := hD h
                exact ⟨⟨t, List.mem_cons_of_mem _ ht, htE⟩, hl⟩
              · rintro h ⟨t, ht, htE⟩
                rcases List.mem_cons.mp ht with rfl | ht'
                · rw [hin] at htE
                  simp [SourcePoll.isEnded] at htE
                · exact hE h ⟨t, ht', htE⟩

/-- C6: for every poll of the quorum stream, the source list splits into an
unpolled part and a polled part (the whole list when the poll returns
pending) such that the sources after the poll are exactly the unpolled ones
followed by the polled ones not observed ended — so every source whose
sequence is seen to end during the poll is removed — and the poll returns
end-of-stream exactly when an observed ending left strictly fewer than
`threshold` sources remaining. -/
theorem msot_source_end_removes_and_terminates {E : Type} [DecidableEq E]
    (st : MSOTState E) (expired : E → Bool) (inputs : Nat → SourcePoll E) :
    ∃ unpolled polled : List Nat,
      st.sources = unpolled ++ polled
      ∧ (MSOT.poll_next st expired inputs).1.sources =
          unpolled ++ polled.filter (fun s => !(inputs s).isEnded)
      ∧ ((MSOT.poll_next st expired inputs).2 = .pending → unpolled = [])
      ∧ ((MSOT.poll_next st expired inputs).2 = .readyNone ↔
          ((∃ s ∈ polled, (inputs s).isEnded = true)
           ∧ (MSOT.poll_next st expired inputs).1.sources.length < st.threshold)) := by
  dsimp only [MSOT.poll_next]
  obtain ⟨pRev, uRev, hA, hB, hC, hD, hE⟩ :=
    pollSources_characterization st.threshold inputs st.sources.reverse []
      (retainExpired expired st.emitted_events st.processed).1
      (retainExpired expired st.emitted_events st.processed).2
  refine ⟨uRev.reverse, pRev.reverse, ?_, ?_, ?_, ?_⟩
  · have h := congrArg List.reverse hA
    simpa using h
  · rw [hB]; simp
  · intro h
    rw [hC h]
    rfl
  · constructor
    · intro h
      obtain ⟨⟨t, ht, htE⟩, hl⟩ := hD h
      exact ⟨⟨t, List.mem_reverse.mpr ht, htE⟩, hl⟩
    · rintro ⟨⟨t, ht, htE⟩, hl⟩
      by_contra hne
      exact absurd hl (not_lt.mpr (hE hne ⟨t, List.mem_reverse.mp ht, htE⟩))

/-- Witness for C6: three sources, all ended, threshold 2. -/
theorem msot_source_end_removes_and_terminates_witness :
    ∃ unpolled polled : List Nat,
      (⟨[0, 1, 2], [], 2, []⟩ : MSOTState Nat).sources = unpolled ++ polled
      ∧ (MSOT.poll_next (⟨[0, 1, 2], [], 2, []⟩ : MSOTState Nat) (fun _ => false)
          (fun _ => (SourcePoll.ended : SourcePoll Nat))).1.sources =
          unpolled ++ polled.filter
            (fun s => !((fun _ => (SourcePoll.ended : SourcePoll Nat)) s).isEnded)
      ∧ ((MSOT.poll_next (⟨[0, 1, 2], [], 2, []⟩ : MSOTState Nat) (fun _ => false)
          (fun _ => (SourcePoll.ended : SourcePoll Nat))).2 = .pending → unpolled = [])
      ∧ ((MSOT.poll_next (⟨[0, 1, 2], [], 2, []⟩ : MSOTState Nat) (fun _ => false)
          (fun _ => (SourcePoll.ended : SourcePoll Nat))).2 = .readyNone ↔
          ((∃ s ∈ polled,
              ((fun _ => (SourcePoll.ended : SourcePoll Nat)) s).isEnded = true)
           ∧ (MSOT.poll_next (⟨[0, 1, 2], [], 2, []⟩ : MSOTState Nat) (fun _ => false)
              (fun _ => (SourcePoll.ended : SourcePoll Nat))).1.sources.length <
                (⟨[0, 1, 2], [], 2, []⟩ : MSOTState Nat).threshold)) :=
  msot_source_end_removes_and_terminates
    (⟨[0, 1, 2], [], 2, []⟩ : MSOTState Nat) (fun _ => false)
    (fun _ => (SourcePoll.ended : SourcePoll Nat))

/-- Witness for C4 with a concrete invertible serialization. -/
theorem reader_inverts_writer_block_witness :
    mkExecutableBlock (fun _ => some ⟨[], [], [[2, 5]]⟩)
      (fun l => match l with | [] => none | n :: p => some ⟨p, n⟩)
      (fun _ => List.replicate 32 0) [9] =
      some { block_hash := List.replicate 32 0,
             transactions := .Unsharded [.Valid (.UserTransaction ⟨[5], 2⟩)] } :=
  reader_inverts_writer_block (fun _ => some ⟨[], [], [[2, 5]]⟩)
    (fun l => match l with | [] => none | n :: p => some ⟨p, n⟩)
    (fun _ => List.replicate 32 0) (fun t => t.sequence_number :: t.payload) [9]
    ⟨[], [], [[2, 5]]⟩ [.received ⟨[5], 2⟩ false, .timedOut]
    rfl (by decide) (by decide) (by decide)
